import Mathlib

/-!
A shallow embedding of the encryption / key-management core of the
`password_manager` repository, together with proofs of the specification's
testable properties.

Embedded source units:
* `src/password_manager/views/password.py` — `FernetHasher` (key creation,
  key archival, encrypt/decrypt wrappers around `cryptography.fernet.Fernet`);
* `src/password_manager/models/password.py` — the flat-file `Password` model's
  constructor validation.

Modelling conventions:
* Python `str` values are lists of Unicode code points (`List Nat`);
* Python `bytes` values are lists of bytes (`List Nat`, each `< 256`);
* fallible Python code returns `Except PyErr`;
* external library primitives used by the source (`base64`, `hashlib.sha256`,
  UTF-8 codecs) are implemented concretely below, following their documented
  CPython behaviour; the `cryptography.fernet` authenticated-encryption
  primitive is modelled by its documented contract (see the `Fernet` section).
-/

namespace PM

/-! ## UTF-8 codec (CPython `str.encode("utf-8")` / `bytes.decode("utf-8")`) -/

/-- UTF-8 encoding of a single Unicode scalar value. -/
def utf8EncodeChar (c : Nat) : List Nat :=
  if c < 128 then [c]
  else if c < 2048 then [192 + c / 64, 128 + c % 64]
  else if c < 65536 then [224 + c / 4096, 128 + c / 64 % 64, 128 + c % 64]
  else [240 + c / 262144, 128 + c / 4096 % 64, 128 + c / 64 % 64, 128 + c % 64]

/-- A Unicode scalar value: a code point that is not a surrogate and is below `0x110000`.
CPython's UTF-8 encoder raises `UnicodeEncodeError` on anything else. -/
def ValidScalar (c : Nat) : Prop := c < 55296 ∨ (57343 < c ∧ c < 1114112)

instance (c : Nat) : Decidable (ValidScalar c) := by unfold ValidScalar; infer_instance

/-- `str.encode("utf-8")`: `none` models `UnicodeEncodeError` (lone surrogate or
out-of-range code point). -/
def utf8Encode? : List Nat → Option (List Nat)
  | [] => some []
  | c :: cs =>
    if ValidScalar c then (utf8Encode? cs).map (fun bs => utf8EncodeChar c ++ bs) else none

/-- Is `b` a UTF-8 continuation byte (`0x80`–`0xBF`)? -/
def IsCont (b : Nat) : Prop := 128 ≤ b ∧ b < 192

instance (b : Nat) : Decidable (IsCont b) := by unfold IsCont; infer_instance

/-- Two-byte UTF-8 sequence: continuation bytes after lead byte `b` (`0xC2`–`0xDF`). -/
def utf8Tail2 (b : Nat) : List Nat → Option (Nat × List Nat)
  | b2 :: bs2 =>
    if IsCont b2 then some ((b - 192) * 64 + (b2 - 128), bs2) else none
  | [] => none

/-- Three-byte UTF-8 sequence: continuation bytes after lead byte `b` (`0xE0`–`0xEF`);
rejects overlong forms and surrogates. -/
def utf8Tail3 (b : Nat) : List Nat → Option (Nat × List Nat)
  | b2 :: b3 :: bs3 =>
    if IsCont b2 ∧ IsCont b3 ∧
        2048 ≤ (b - 224) * 4096 + (b2 - 128) * 64 + (b3 - 128) ∧
        ((b - 224) * 4096 + (b2 - 128) * 64 + (b3 - 128) < 55296 ∨
          57343 < (b - 224) * 4096 + (b2 - 128) * 64 + (b3 - 128)) then
      some ((b - 224) * 4096 + (b2 - 128) * 64 + (b3 - 128), bs3)
    else none
  | _ => none

/-- Four-byte UTF-8 sequence: continuation bytes after lead byte `b` (`0xF0`–`0xF4`);
rejects overlong forms and code points above `0x10FFFF`. -/
def utf8Tail4 (b : Nat) : List Nat → Option (Nat × List Nat)
  | b2 :: b3 :: b4 :: bs4 =>
    if IsCont b2 ∧ IsCont b3 ∧ IsCont b4 ∧
        65536 ≤ (b - 240) * 262144 + (b2 - 128) * 4096 + (b3 - 128) * 64 + (b4 - 128) ∧
        (b - 240) * 262144 + (b2 - 128) * 4096 + (b3 - 128) * 64 + (b4 - 128) < 1114112 then
      some ((b - 240) * 262144 + (b2 - 128) * 4096 + (b3 - 128) * 64 + (b4 - 128), bs4)
    else none
  | _ => none

/-- Decode one UTF-8-encoded scalar value from the front of a byte list, returning
it together with the remaining bytes.  Strict, as CPython: rejects stray
continuation bytes, overlong forms, surrogates and code points above `0x10FFFF`. -/
def utf8DecodeStep : List Nat → Option (Nat × List Nat)
  | [] => none
  | b :: bs =>
    if b < 128 then some (b, bs)
    else if b < 194 then none
    else if b < 224 then utf8Tail2 b bs
    else if b < 240 then utf8Tail3 b bs
    else if b < 245 then utf8Tail4 b bs
    else none

/-- Fuel-driven decoding loop; `fuel ≥ l.length` always suffices. -/
def utf8DecodeLoop : Nat → List Nat → Option (List Nat)
  | _, [] => some []
  | 0, _ :: _ => none
  | fuel + 1, b :: bs =>
    match utf8DecodeStep (b :: bs) with
    | none => none
    | some (c, rest) => (utf8DecodeLoop fuel rest).map (fun cs => c :: cs)

/-- Strict UTF-8 decoding of a whole byte list, as CPython `bytes.decode("utf-8")`.
`none` models `UnicodeDecodeError`. -/
def utf8Decode (l : List Nat) : Option (List Nat) := utf8DecodeLoop l.length l

theorem utf8Tail2_length (b : Nat) (bs : List Nat) (c : Nat) (rest : List Nat)
    (h : utf8Tail2 b bs = some (c, rest)) : rest.length < bs.length := by
  match bs with
  | [] => cases h
  | b2 :: bs2 =>
    simp only [utf8Tail2] at h
    split_ifs at h with hc
    simp only [Option.some.injEq, Prod.mk.injEq] at h
    rw [← h.2]; simp

theorem utf8Tail3_length (b : Nat) (bs : List Nat) (c : Nat) (rest : List Nat)
    (h : utf8Tail3 b bs = some (c, rest)) : rest.length < bs.length := by
  match bs with
  | [] => cases h
  | [b2] => cases h
  | b2 :: b3 :: bs3 =>
    simp only [utf8Tail3] at h
    split_ifs at h with hc
    simp only [Option.some.injEq, Prod.mk.injEq] at h
    rw [← h.2]; simp; omega

theorem utf8Tail4_length (b : Nat) (bs : List Nat) (c : Nat) (rest : List Nat)
    (h : utf8Tail4 b bs = some (c, rest)) : rest.length < bs.length := by
  match bs with
  | [] => cases h
  | [b2] => cases h
  | [b2, b3] => cases h
  | b2 :: b3 :: b4 :: bs4 =>
    simp only [utf8Tail4] at h
    split_ifs at h with hc
    simp only [Option.some.injEq, Prod.mk.injEq] at h
    rw [← h.2]; simp; omega

theorem utf8DecodeStep_length (l : List Nat) (c : Nat) (rest : List Nat)
    (h : utf8DecodeStep l = some (c, rest)) : rest.length < l.length := by
  match l with
  | [] => cases h
  | b :: bs =>
    simp only [utf8DecodeStep] at h
    split_ifs at h
    · simp only [Option.some.injEq, Prod.mk.injEq] at h
      rw [← h.2]; simp
    · have := utf8Tail2_length b bs c rest h
      simp only [List.length_cons]; omega
    · have := utf8Tail3_length b bs c rest h
      simp only [List.length_cons]; omega
    · have := utf8Tail4_length b bs c rest h
      simp only [List.length_cons]; omega

/-- Decoding one scalar from the front of its own encoding succeeds and
consumes exactly the encoding. -/
theorem utf8DecodeStep_encodeChar (c : Nat) (bs : List Nat) (hv : ValidScalar c) :
    utf8DecodeStep (utf8EncodeChar c ++ bs) = some (c, bs) := by
  unfold utf8EncodeChar
  by_cases h1 : c < 128
  · rw [if_pos h1]
    simp only [List.cons_append, List.nil_append, utf8DecodeStep]
    rw [if_pos h1]
  rw [if_neg h1]
  by_cases h2 : c < 2048
  · rw [if_pos h2]
    simp only [List.cons_append, List.nil_append, utf8DecodeStep]
    rw [if_neg (by omega), if_neg (by omega), if_pos (by omega)]
    simp only [utf8Tail2]
    rw [if_pos (show IsCont (128 + c % 64) from ⟨by omega, by omega⟩)]
    have hval : (192 + c / 64 - 192) * 64 + (128 + c % 64 - 128) = c := by omega
    rw [hval]
  rw [if_neg h2]
  have hc64 : c / 64 % 64 = c % 4096 / 64 := by rw [Nat.div_mod_eq_mod_mul_div]
  by_cases h3 : c < 65536
  · rw [if_pos h3]
    simp only [List.cons_append, List.nil_append, utf8DecodeStep]
    rw [if_neg (by omega), if_neg (by omega), if_neg (by omega), if_pos (by omega)]
    simp only [utf8Tail3]
    have hval : (224 + c / 4096 - 224) * 4096 + (128 + c / 64 % 64 - 128) * 64 +
        (128 + c % 64 - 128) = c := by omega
    rw [hval]
    rw [if_pos ?side]
    case side =>
      refine ⟨⟨by omega, by omega⟩, ⟨by omega, by omega⟩, by omega, ?_⟩
      rcases hv with hv | hv
      · left; omega
      · right; omega
  · rw [if_neg h3]
    have hv' : 65536 ≤ c ∧ c < 1114112 := by
      rcases hv with hv | hv
      · omega
      · omega
    have hc4096 : c / 4096 % 64 = c % 262144 / 4096 := by rw [Nat.div_mod_eq_mod_mul_div]
    simp only [List.cons_append, List.nil_append, utf8DecodeStep]
    rw [if_neg (by omega), if_neg (by omega), if_neg (by omega), if_neg (by omega),
      if_pos (by omega)]
    simp only [utf8Tail4]
    have hval : (240 + c / 262144 - 240) * 262144 + (128 + c / 4096 % 64 - 128) * 4096 +
        (128 + c / 64 % 64 - 128) * 64 + (128 + c % 64 - 128) = c := by omega
    rw [hval]
    rw [if_pos ?side2]
    case side2 =>
      exact ⟨⟨by omega, by omega⟩, ⟨by omega, by omega⟩, ⟨by omega, by omega⟩,
        by omega, by omega⟩

theorem utf8EncodeChar_ne_nil (c : Nat) : utf8EncodeChar c ≠ [] := by
  unfold utf8EncodeChar
  split_ifs <;> simp

/-- The decoding loop does not depend on the exact fuel, as long as it covers
the length of the input. -/
theorem utf8DecodeLoop_fuel (fuel fuel' : Nat) (l : List Nat)
    (h : l.length ≤ fuel) (h' : l.length ≤ fuel') :
    utf8DecodeLoop fuel l = utf8DecodeLoop fuel' l := by
  induction fuel generalizing fuel' l with
  | zero =>
    match l with
    | [] => cases fuel' <;> rfl
    | b :: bs => simp at h
  | succ fuel ih =>
    match l with
    | [] => cases fuel' <;> rfl
    | b :: bs =>
      match fuel' with
      | 0 => simp at h'
      | fuel' + 1 =>
        cases hstep : utf8DecodeStep (b :: bs) with
        | none => simp only [utf8DecodeLoop, hstep]
        | some p =>
          obtain ⟨c, rest⟩ := p
          have hlen := utf8DecodeStep_length _ _ _ hstep
          simp only [List.length_cons] at hlen h h'
          simp only [utf8DecodeLoop, hstep]
          rw [ih fuel' rest (by omega) (by omega)]

/-- A nonempty input lets the decoding loop take exactly one step. -/
theorem utf8DecodeLoop_step (fuel : Nat) (l : List Nat) (c : Nat) (rest : List Nat)
    (hl : l ≠ []) (hstep : utf8DecodeStep l = some (c, rest)) :
    utf8DecodeLoop (fuel + 1) l = (utf8DecodeLoop fuel rest).map (fun cs => c :: cs) := by
  match l with
  | [] => exact absurd rfl hl
  | b :: bs => simp only [utf8DecodeLoop, hstep]

/-- UTF-8 round trip: decoding an encoded string recovers the string. -/
theorem utf8Decode_encode (s bs : List Nat) (h : utf8Encode? s = some bs) :
    utf8Decode bs = some s := by
  induction s generalizing bs with
  | nil =>
    simp only [utf8Encode?, Option.some.injEq] at h
    rw [← h]; rfl
  | cons c cs ih =>
    simp only [utf8Encode?] at h
    by_cases hv : ValidScalar c
    · rw [if_pos hv] at h
      cases hcs : utf8Encode? cs with
      | none => rw [hcs] at h; exact Option.noConfusion h
      | some bs' =>
        rw [hcs] at h
        injection h with h
        subst h
        show utf8Decode (utf8EncodeChar c ++ bs') = some (c :: cs)
        have hpos : 0 < (utf8EncodeChar c).length := by
          cases hE : utf8EncodeChar c with
          | nil => exact absurd hE (utf8EncodeChar_ne_nil c)
          | cons x xs => simp
        have hlen : (utf8EncodeChar c ++ bs').length =
            (utf8EncodeChar c).length + bs'.length := List.length_append _ _
        obtain ⟨n, hn⟩ : ∃ n, (utf8EncodeChar c ++ bs').length = n + 1 :=
          ⟨(utf8EncodeChar c ++ bs').length - 1, by omega⟩
        have hne : utf8EncodeChar c ++ bs' ≠ [] := by
          intro hx
          have := congrArg List.length hx
          simp only [List.length_append, List.length_nil] at this
          omega
        unfold utf8Decode
        rw [hn, utf8DecodeLoop_step n _ c bs' hne (utf8DecodeStep_encodeChar c bs' hv)]
        rw [utf8DecodeLoop_fuel n bs'.length bs' (by omega) le_rfl]
        have hrec := ih bs' hcs
        unfold utf8Decode at hrec
        rw [hrec]
        rfl
    · rw [if_neg hv] at h; exact Option.noConfusion h

/-! ## Base64 (CPython `base64.b64encode` and `base64.urlsafe_b64decode`)

`b64encode` is the standard-alphabet encoder used by `FernetHasher.create_key`.
`urlsafe_b64decode` is what `cryptography.fernet.Fernet.__init__` applies to its
key argument; CPython's non-strict decoder discards bytes outside the alphabet,
maps `-`/`_` onto `+`/`/` first, and then requires a properly `=`-padded
multiple of four data characters. -/

/-- The standard base64 alphabet, as a map from a 6-bit value to an ASCII code. -/
def b64EncChar (n : Nat) : Nat :=
  if n < 26 then 65 + n
  else if n < 52 then 71 + n
  else if n < 62 then n - 4
  else if n = 62 then 43
  else 47

/-- Inverse of the standard base64 alphabet (`none` for non-alphabet bytes). -/
def b64DecChar? (c : Nat) : Option Nat :=
  if 65 ≤ c ∧ c ≤ 90 then some (c - 65)
  else if 97 ≤ c ∧ c ≤ 122 then some (c - 71)
  else if 48 ≤ c ∧ c ≤ 57 then some (c + 4)
  else if c = 43 then some 62
  else if c = 47 then some 63
  else none

/-- `base64.b64encode`: three input bytes become four alphabet characters; a final
group of one or two bytes is padded with `=` (ASCII 61). -/
def b64encode : List Nat → List Nat
  | b1 :: b2 :: b3 :: rest =>
    b64EncChar (b1 / 4) :: b64EncChar (b1 % 4 * 16 + b2 / 16) ::
      b64EncChar (b2 % 16 * 4 + b3 / 64) :: b64EncChar (b3 % 64) :: b64encode rest
  | [b1, b2] =>
    [b64EncChar (b1 / 4), b64EncChar (b1 % 4 * 16 + b2 / 16), b64EncChar (b2 % 16 * 4), 61]
  | [b1] => [b64EncChar (b1 / 4), b64EncChar (b1 % 4 * 16), 61, 61]
  | [] => []

/-- Decode a final quad ending in `==`: one output byte. -/
def b64Last2 (c1 c2 : Nat) : Option (List Nat) :=
  match b64DecChar? c1, b64DecChar? c2 with
  | some n1, some n2 => some [n1 * 4 + n2 / 16]
  | _, _ => none

/-- Decode a final quad ending in a single `=`: two output bytes. -/
def b64Last3 (c1 c2 c3 : Nat) : Option (List Nat) :=
  match b64DecChar? c1, b64DecChar? c2, b64DecChar? c3 with
  | some n1, some n2, some n3 => some [n1 * 4 + n2 / 16, n2 % 16 * 16 + n3 / 4]
  | _, _, _ => none

/-- Decode a full quad: three output bytes. -/
def b64Full4 (c1 c2 c3 c4 : Nat) : Option (List Nat) :=
  match b64DecChar? c1, b64DecChar? c2, b64DecChar? c3, b64DecChar? c4 with
  | some n1, some n2, some n3, some n4 =>
    some [n1 * 4 + n2 / 16, n2 % 16 * 16 + n3 / 4, n3 % 4 * 64 + n4]
  | _, _, _, _ => none

/-- Decode a base64 character stream that has already been restricted to
alphabet characters and `=`; requires groups of four, with `=` allowed only as
padding of the final group. -/
def b64decodeQuads : List Nat → Option (List Nat)
  | [] => some []
  | c1 :: c2 :: c3 :: c4 :: rest =>
    if rest = [] ∧ c3 = 61 ∧ c4 = 61 then b64Last2 c1 c2
    else if rest = [] ∧ c4 = 61 then b64Last3 c1 c2 c3
    else
      match b64Full4 c1 c2 c3 c4 with
      | some bytes => (b64decodeQuads rest).map (fun bs => bytes ++ bs)
      | none => none
  | _ => none

/-- Characters CPython's non-strict base64 decoder does not discard. -/
def b64KeepChar (c : Nat) : Bool := (b64DecChar? c).isSome || decide (c = 61)

/-- `base64.b64decode(..., validate=False)`: discard foreign characters, then
decode; `none` models `binascii.Error`. -/
def b64decode (input : List Nat) : Option (List Nat) :=
  b64decodeQuads (input.filter b64KeepChar)

/-- The `-`/`_` to `+`/`/` translation done by `base64.urlsafe_b64decode`. -/
def urlsafeChar (c : Nat) : Nat := if c = 45 then 43 else if c = 95 then 47 else c

/-- `base64.urlsafe_b64decode`: translate the two URL-safe characters, then decode.
Note that the standard-alphabet characters `+` and `/` pass through unchanged,
so standard base64 text is also accepted. -/
def urlsafe_b64decode (input : List Nat) : Option (List Nat) :=
  b64decode (input.map urlsafeChar)

theorem b64DecChar_encChar : ∀ n < 64, b64DecChar? (b64EncChar n) = some n := by decide

theorem b64EncChar_keep : ∀ n < 64, b64KeepChar (b64EncChar n) = true ∧
    urlsafeChar (b64EncChar n) = b64EncChar n ∧ b64EncChar n ≠ 61 := by decide

theorem b64_pad_keep : b64KeepChar 61 = true ∧ urlsafeChar 61 = 61 := by decide

theorem b64encode_chars (bs : List Nat) (hb : ∀ b ∈ bs, b < 256) :
    ∀ ch ∈ b64encode bs, b64KeepChar ch = true ∧ urlsafeChar ch = ch := by
  induction bs using b64encode.induct with
  | case1 b1 b2 b3 rest ih =>
    have h1 : b1 < 256 := hb b1 (by simp)
    have h2 : b2 < 256 := hb b2 (by simp)
    have h3 : b3 < 256 := hb b3 (by simp)
    intro ch hch
    simp only [b64encode, List.mem_cons] at hch
    rcases hch with h | h | h | h | h
    · rw [h]; exact (b64EncChar_keep (b1 / 4) (by omega)).imp id (fun hx => hx.1)
    · rw [h]; exact (b64EncChar_keep (b1 % 4 * 16 + b2 / 16) (by omega)).imp id (fun hx => hx.1)
    · rw [h]; exact (b64EncChar_keep (b2 % 16 * 4 + b3 / 64) (by omega)).imp id (fun hx => hx.1)
    · rw [h]; exact (b64EncChar_keep (b3 % 64) (by omega)).imp id (fun hx => hx.1)
    · exact ih (fun b hbm => hb b (by simp [hbm])) ch h
  | case2 b1 b2 =>
    have h1 : b1 < 256 := hb b1 (by simp)
    have h2 : b2 < 256 := hb b2 (by simp)
    intro ch hch
    simp only [b64encode, List.mem_cons] at hch
    rcases hch with h | h | h | h | h
    · rw [h]; exact (b64EncChar_keep (b1 / 4) (by omega)).imp id (fun hx => hx.1)
    · rw [h]; exact (b64EncChar_keep (b1 % 4 * 16 + b2 / 16) (by omega)).imp id (fun hx => hx.1)
    · rw [h]; exact (b64EncChar_keep (b2 % 16 * 4) (by omega)).imp id (fun hx => hx.1)
    · rw [h]; exact b64_pad_keep
    · cases h
  | case3 b1 =>
    have h1 : b1 < 256 := hb b1 (by simp)
    intro ch hch
    simp only [b64encode, List.mem_cons] at hch
    rcases hch with h | h | h | h | h
    · rw [h]; exact (b64EncChar_keep (b1 / 4) (by omega)).imp id (fun hx => hx.1)
    · rw [h]; exact (b64EncChar_keep (b1 % 4 * 16) (by omega)).imp id (fun hx => hx.1)
    · rw [h]; exact b64_pad_keep
    · rw [h]; exact b64_pad_keep
    · cases h
  | case4 => intro ch hch; cases hch

theorem b64EncChar_ne_pad (n : Nat) (hn : n < 64) : b64EncChar n ≠ 61 :=
  (b64EncChar_keep n hn).2.2

theorem b64decodeQuads_encode (bs : List Nat) (hb : ∀ b ∈ bs, b < 256) :
    b64decodeQuads (b64encode bs) = some bs := by
  induction bs using b64encode.induct with
  | case1 b1 b2 b3 rest ih =>
    have h1 : b1 < 256 := hb b1 (by simp)
    have h2 : b2 < 256 := hb b2 (by simp)
    have h3 : b3 < 256 := hb b3 (by simp)
    simp only [b64encode, b64decodeQuads]
    rw [if_neg (fun hx => b64EncChar_ne_pad (b2 % 16 * 4 + b3 / 64) (by omega) hx.2.1)]
    rw [if_neg (fun hx => b64EncChar_ne_pad (b3 % 64) (by omega) hx.2)]
    rw [show b64Full4 (b64EncChar (b1 / 4)) (b64EncChar (b1 % 4 * 16 + b2 / 16))
        (b64EncChar (b2 % 16 * 4 + b3 / 64)) (b64EncChar (b3 % 64)) =
        some [b1, b2, b3] from ?full]
    case full =>
      unfold b64Full4
      rw [b64DecChar_encChar (b1 / 4) (by omega),
        b64DecChar_encChar (b1 % 4 * 16 + b2 / 16) (by omega),
        b64DecChar_encChar (b2 % 16 * 4 + b3 / 64) (by omega),
        b64DecChar_encChar (b3 % 64) (by omega)]
      have e1 : b1 / 4 * 4 + (b1 % 4 * 16 + b2 / 16) / 16 = b1 := by omega
      have e2 : (b1 % 4 * 16 + b2 / 16) % 16 * 16 + (b2 % 16 * 4 + b3 / 64) / 4 = b2 := by omega
      have e3 : (b2 % 16 * 4 + b3 / 64) % 4 * 64 + b3 % 64 = b3 := by omega
      simp only [e1, e2, e3]
    rw [ih (fun b hbm => hb b (by simp [hbm]))]
    rfl
  | case2 b1 b2 =>
    have h1 : b1 < 256 := hb b1 (by simp)
    have h2 : b2 < 256 := hb b2 (by simp)
    simp only [b64encode, b64decodeQuads]
    rw [if_neg (fun hx => b64EncChar_ne_pad (b2 % 16 * 4) (by omega) hx.2.1)]
    rw [if_pos (by simp)]
    unfold b64Last3
    rw [b64DecChar_encChar (b1 / 4) (by omega),
      b64DecChar_encChar (b1 % 4 * 16 + b2 / 16) (by omega),
      b64DecChar_encChar (b2 % 16 * 4) (by omega)]
    have e1 : b1 / 4 * 4 + (b1 % 4 * 16 + b2 / 16) / 16 = b1 := by omega
    have e2 : (b1 % 4 * 16 + b2 / 16) % 16 * 16 + b2 % 16 * 4 / 4 = b2 := by omega
    simp only [e1, e2]
  | case3 b1 =>
    have h1 : b1 < 256 := hb b1 (by simp)
    simp only [b64encode, b64decodeQuads]
    rw [if_pos (by simp)]
    unfold b64Last2
    rw [b64DecChar_encChar (b1 / 4) (by omega), b64DecChar_encChar (b1 % 4 * 16) (by omega)]
    have e1 : b1 / 4 * 4 + b1 % 4 * 16 / 16 = b1 := by omega
    simp only [e1]
  | case4 => rfl

/-- Every character of a `b64encode` output survives the decoder's filter and the
URL-safe translation, so both decoders invert `b64encode`. -/
theorem list_map_self {α : Type} (l : List α) (f : α → α) (h : ∀ a ∈ l, f a = a) :
    l.map f = l := by
  induction l with
  | nil => rfl
  | cons x xs ih =>
    simp only [List.map_cons, h x (by simp), ih (fun a ha => h a (by simp [ha]))]

theorem b64decode_encode (bs : List Nat) (hb : ∀ b ∈ bs, b < 256) :
    b64decode (b64encode bs) = some bs := by
  unfold b64decode
  rw [List.filter_eq_self.mpr (fun ch hch => (b64encode_chars bs hb ch hch).1)]
  exact b64decodeQuads_encode bs hb

theorem urlsafe_b64decode_encode (bs : List Nat) (hb : ∀ b ∈ bs, b < 256) :
    urlsafe_b64decode (b64encode bs) = some bs := by
  unfold urlsafe_b64decode
  have hmap : (b64encode bs).map urlsafeChar = b64encode bs :=
    list_map_self _ _ (fun ch hch => (b64encode_chars bs hb ch hch).2)
  rw [hmap]
  exact b64decode_encode bs hb

theorem b64encode_length (bs : List Nat) :
    (b64encode bs).length = 4 * ((bs.length + 2) / 3) := by
  induction bs using b64encode.induct with
  | case1 b1 b2 b3 rest ih =>
    simp only [b64encode, List.length_cons, ih]
    omega
  | case2 b1 b2 => simp [b64encode]
  | case3 b1 => simp [b64encode]
  | case4 => rfl

/-! ## SHA-256 (CPython `hashlib.sha256(...).digest()`)

A concrete implementation of FIPS 180-4 SHA-256 over byte lists, with 32-bit
words represented as `Nat` reduced modulo `2^32`. -/

/-- Reduce to a 32-bit word. -/
def w32 (n : Nat) : Nat := n % 4294967296

/-- Right rotation of a 32-bit word. -/
def rotr32 (n x : Nat) : Nat := w32 ((x >>> n) ||| (x <<< (32 - n)))

def sha256BigSigma0 (x : Nat) : Nat := rotr32 2 x ^^^ rotr32 13 x ^^^ rotr32 22 x

def sha256BigSigma1 (x : Nat) : Nat := rotr32 6 x ^^^ rotr32 11 x ^^^ rotr32 25 x

def sha256SmallSigma0 (x : Nat) : Nat := rotr32 7 x ^^^ rotr32 18 x ^^^ (x >>> 3)

def sha256SmallSigma1 (x : Nat) : Nat := rotr32 17 x ^^^ rotr32 19 x ^^^ (x >>> 10)

def sha256Ch (x y z : Nat) : Nat := (x &&& y) ^^^ ((x ^^^ 4294967295) &&& z)

def sha256Maj (x y z : Nat) : Nat := (x &&& y) ^^^ (x &&& z) ^^^ (y &&& z)

/-- The 64 SHA-256 round constants. -/
def sha256K : List Nat :=
  [1116352408, 1899447441, 3049323471, 3921009573, 961987163, 1508970993,
   2453635748, 2870763221, 3624381080, 310598401, 607225278, 1426881987,
   1925078388, 2162078206, 2614888103, 3248222580, 3835390401, 4022224774,
   264347078, 604807628, 770255983, 1249150122, 1555081692, 1996064986,
   2554220882, 2821834349, 2952996808, 3210313671, 3336571891, 3584528711,
   113926993, 338241895, 666307205, 773529912, 1294757372, 1396182291,
   1695183700, 1986661051, 2177026350, 2456956037, 2730485921, 2820302411,
   3259730800, 3345764771, 3516065817, 3600352804, 4094571909, 275423344,
   430227734, 506948616, 659060556, 883997877, 958139571, 1322822218,
   1537002063, 1747873779, 1955562222, 2024104815, 2227730452, 2361852424,
   2428436474, 2756734187, 3204031479, 3329325298]

/-- The eight working variables of the compression function. -/
structure Sha256State where
  a : Nat
  b : Nat
  c : Nat
  d : Nat
  e : Nat
  f : Nat
  g : Nat
  h : Nat
deriving DecidableEq

/-- The SHA-256 initial hash value. -/
def sha256Init : Sha256State :=
  ⟨1779033703, 3144134277, 1013904242, 2773480762,
   1359893119, 2600822924, 528734635, 1541459225⟩

/-- Convert four big-endian bytes at a time into 32-bit words. -/
def bytesToWords32 : List Nat → List Nat
  | b1 :: b2 :: b3 :: b4 :: rest =>
    (b1 * 16777216 + b2 * 65536 + b3 * 256 + b4) :: bytesToWords32 rest
  | _ => []

/-- Serialise a 32-bit word to four big-endian bytes. -/
def word32ToBytes (w : Nat) : List Nat :=
  [w / 16777216 % 256, w / 65536 % 256, w / 256 % 256, w % 256]

/-- Extend sixteen message-schedule words to sixty-four. -/
def sha256Schedule (ws : List Nat) : List Nat :=
  (List.range 48).foldl
    (fun acc _ =>
      let n := acc.length
      acc ++ [w32 (sha256SmallSigma1 (acc.getD (n - 2) 0) + acc.getD (n - 7) 0 +
        sha256SmallSigma0 (acc.getD (n - 15) 0) + acc.getD (n - 16) 0)])
    ws

/-- One round of the compression function. -/
def sha256Round (st : Sha256State) (kw : Nat × Nat) : Sha256State :=
  let t1 := w32 (st.h + sha256BigSigma1 st.e + sha256Ch st.e st.f st.g + kw.1 + kw.2)
  let t2 := w32 (sha256BigSigma0 st.a + sha256Maj st.a st.b st.c)
  ⟨w32 (t1 + t2), st.a, st.b, st.c, w32 (st.d + t1), st.e, st.f, st.g⟩

/-- Process one 64-byte block. -/
def sha256Compress (st : Sha256State) (block : List Nat) : Sha256State :=
  let ws := sha256Schedule (bytesToWords32 block)
  let r := (sha256K.zip ws).foldl sha256Round st
  ⟨w32 (st.a + r.a), w32 (st.b + r.b), w32 (st.c + r.c), w32 (st.d + r.d),
   w32 (st.e + r.e), w32 (st.f + r.f), w32 (st.g + r.g), w32 (st.h + r.h)⟩

/-- Split a byte list into 64-byte chunks. -/
def chunks64 : List Nat → List (List Nat)
  | [] => []
  | b :: bs => ((b :: bs).take 64) :: chunks64 ((b :: bs).drop 64)
termination_by l => l.length
decreasing_by
  simp only [List.length_drop, List.length_cons]
  omega

/-- Serialise the 8-bit length field (message length in bits, 8 big-endian bytes). -/
def sha256LenBytes (bits : Nat) : List Nat :=
  [bits / 72057594037927936 % 256, bits / 281474976710656 % 256,
   bits / 1099511627776 % 256, bits / 4294967296 % 256,
   bits / 16777216 % 256, bits / 65536 % 256, bits / 256 % 256, bits % 256]

/-- FIPS 180-4 padding: a `0x80` byte, zeroes to 56 mod 64, then the bit length. -/
def sha256Pad (msg : List Nat) : List Nat :=
  msg ++ 128 :: List.replicate ((119 - msg.length % 64) % 64) 0 ++
    sha256LenBytes (8 * msg.length)

/-- `hashlib.sha256(msg).digest()`: the 32-byte SHA-256 digest of `msg`. -/
def sha256 (msg : List Nat) : List Nat :=
  let final := (chunks64 (sha256Pad msg)).foldl sha256Compress sha256Init
  word32ToBytes final.a ++ word32ToBytes final.b ++ word32ToBytes final.c ++
    word32ToBytes final.d ++ word32ToBytes final.e ++ word32ToBytes final.f ++
    word32ToBytes final.g ++ word32ToBytes final.h

theorem sha256_length (msg : List Nat) : (sha256 msg).length = 32 := by
  unfold sha256
  simp [word32ToBytes]

theorem word32ToBytes_lt (w : Nat) : ∀ b ∈ word32ToBytes w, b < 256 := by
  intro b hb
  simp only [word32ToBytes, List.mem_cons, List.not_mem_nil, or_false] at hb
  have hm : ∀ x : Nat, x % 256 < 256 := fun x => Nat.mod_lt _ (by norm_num)
  rcases hb with h | h | h | h <;> (subst h; exact hm _)

theorem sha256_bytes_lt (msg : List Nat) : ∀ b ∈ sha256 msg, b < 256 := by
  unfold sha256
  intro b hb
  simp only [List.mem_append, or_assoc] at hb
  rcases hb with h | h | h | h | h | h | h | h <;> exact word32ToBytes_lt _ b h

/-! ## Python values and errors -/

/-- The Python exception classes surfaced by the embedded code.
`UnicodeEncodeError` and `UnicodeDecodeError` are subclasses of `ValueError`
and are represented as `valueError` with a distinguishing message. -/
inductive PyErr where
  | valueError (msg : String)
  | typeError (msg : String)
  | attributeError (msg : String)
deriving DecidableEq

/-- The Python runtime values relevant to the embedded code: strings (as code
points), bytes, integers, booleans and `None`. -/
inductive PyVal where
  | pyStr (s : List Nat)
  | pyBytes (b : List Nat)
  | pyInt (n : Int)
  | pyBool (b : Bool)
  | pyNone
deriving DecidableEq

instance {e a : Type} [DecidableEq e] [DecidableEq a] : DecidableEq (Except e a) := fun x y =>
  match x, y with
  | .ok u, .ok v =>
    if h : u = v then .isTrue (by rw [h]) else .isFalse (fun hc => h (by injection hc))
  | .error u, .error v =>
    if h : u = v then .isTrue (by rw [h]) else .isFalse (fun hc => h (by injection hc))
  | .ok _, .error _ => .isFalse (fun hc => Except.noConfusion hc)
  | .error _, .ok _ => .isFalse (fun hc => Except.noConfusion hc)

def pyErrMsg : PyErr → String
  | .valueError m => m
  | .typeError m => m
  | .attributeError m => m

/-! ## The external `cryptography.fernet.Fernet` primitive

`Fernet` is an authenticated-encryption scheme (AES-128-CBC plus
HMAC-SHA256 over a version byte, timestamp, IV and ciphertext, URL-safe
base64-encoded).  The repository treats it as an opaque library primitive, and
we model it by its documented contract: construction URL-safe-base64-decodes
the key and insists on exactly 32 decoded bytes (split internally into a
signing half and an encryption half); a token decrypts exactly under the key
that produced it, yielding the original plaintext bytes; under any other key,
or for any byte string that is not a token genuinely produced under that key,
decryption raises `InvalidToken`. -/

/-- A validated Fernet instance; `keyBytes` is the 32-byte decoded key
(`_signing_key ++ _encryption_key`). -/
structure Fernet where
  keyBytes : List Nat
deriving DecidableEq

def fernetKeyMsg : String := "Fernet key must be 32 url-safe base64-encoded bytes."

/-- `Fernet.__init__`: URL-safe base64-decode the key and require 32 bytes. -/
def Fernet.ofKey (key : List Nat) : Except PyErr Fernet :=
  match urlsafe_b64decode key with
  | none => .error (.valueError fernetKeyMsg)
  | some decoded =>
    if decoded.length = 32 then .ok ⟨decoded⟩
    else .error (.valueError fernetKeyMsg)

/-- A Fernet token, abstractly: the token bytes determine (and are determined
by) the key that produced them, the timestamp, the IV and the plaintext. -/
structure FernetToken where
  keyBytes : List Nat
  timestamp : Nat
  iv : List Nat
  data : List Nat
deriving DecidableEq

/-- `Fernet.encrypt` (at an explicit time and IV, which the library draws from
the clock and its randomness source). -/
def Fernet.encryptAtTime (f : Fernet) (time : Nat) (iv : List Nat) (data : List Nat) :
    FernetToken :=
  ⟨f.keyBytes, time, iv, data⟩

/-- `Fernet.decrypt` without TTL: the HMAC check succeeds exactly for tokens
produced under the same key, recovering the original plaintext; `none` models
`InvalidToken`. -/
def Fernet.decryptTok (f : Fernet) (tok : FernetToken) : Option (List Nat) :=
  if tok.keyBytes = f.keyBytes then some tok.data else none

/-! ## `FernetHasher` (`views/password.py`) -/

/-- A constructed `FernetHasher` instance (its only state is `self.fernet`). -/
structure FernetHasher where
  fernet : Fernet
deriving DecidableEq

def unicodeEncodeErrMsg : String := "UnicodeEncodeError: surrogates not allowed"

def fernetNonBytesMsg : String := "argument should be a bytes-like object or ASCII string"

/-- `FernetHasher.__init__`: encode a `str` key to UTF-8 bytes, then construct
`Fernet(key)` inside a `try`, re-raising any exception as
`ValueError(f"Invalid key: {e}")`.  (A `UnicodeEncodeError` from `key.encode`
happens before the `try` and propagates directly; it is a `ValueError`
subclass.)  The `KEY_DIR.mkdir` side effect has no observable return value and
is omitted. -/
def FernetHasher.init (key : PyVal) : Except PyErr FernetHasher :=
  match key with
  | .pyStr s =>
    match utf8Encode? s with
    | none => .error (.valueError unicodeEncodeErrMsg)
    | some kb =>
      match Fernet.ofKey kb with
      | .ok f => .ok ⟨f⟩
      | .error e => .error (.valueError ("Invalid key: " ++ pyErrMsg e))
  | .pyBytes kb =>
    match Fernet.ofKey kb with
    | .ok f => .ok ⟨f⟩
    | .error e => .error (.valueError ("Invalid key: " ++ pyErrMsg e))
  | _ => .error (.valueError ("Invalid key: " ++ fernetNonBytesMsg))

def typeErrValueMsg : String := "Value must be string or bytes"

/-- `FernetHasher.encrypt`: UTF-8-encode a `str` value, reject values that are
neither `str` nor `bytes` with `TypeError`, then call `self.fernet.encrypt`. -/
def FernetHasher.encrypt (h : FernetHasher) (time : Nat) (iv : List Nat) (value : PyVal) :
    Except PyErr FernetToken :=
  match value with
  | .pyStr s =>
    match utf8Encode? s with
    | none => .error (.valueError unicodeEncodeErrMsg)
    | some b => .ok (h.fernet.encryptAtTime time iv b)
  | .pyBytes b => .ok (h.fernet.encryptAtTime time iv b)
  | _ => .error (.typeError typeErrValueMsg)

/-- What `FernetHasher.decrypt` receives: a stored token value.  A `str` input
is UTF-8-encoded by the source before being passed to `Fernet.decrypt`;
`tok` covers any `str`/`bytes` input that is the serialisation of the Fernet
token `t`, `malformed` covers `str`/`bytes` input that is no token at all, and
`other` covers values of any other type. -/
inductive TokenVal where
  | tok (t : FernetToken)
  | malformed
  | other
deriving DecidableEq

def invalidTokenMsg : String := "Invalid token or corrupted data"

def unicodeDecodeErrMsg : String := "UnicodeDecodeError: invalid utf-8"

def decryptFailedMsg (cause : String) : String := "Decryption failed: " ++ cause

/-- `FernetHasher.decrypt`: type-check the value, call `self.fernet.decrypt`,
turning `InvalidToken` into `ValueError("Invalid token or corrupted data")`,
then `.decode()` the plaintext as UTF-8, turning the `UnicodeDecodeError` of a
non-UTF-8 plaintext into `ValueError(f"Decryption failed: {e}")` via the
final `except Exception` clause. -/
def FernetHasher.decrypt (h : FernetHasher) (value : TokenVal) : Except PyErr (List Nat) :=
  match value with
  | .other => .error (.typeError typeErrValueMsg)
  | .malformed => .error (.valueError invalidTokenMsg)
  | .tok tk =>
    match h.fernet.decryptTok tk with
    | none => .error (.valueError invalidTokenMsg)
    | some data =>
      match utf8Decode data with
      | some s => .ok s
      | none => .error (.valueError (decryptFailedMsg unicodeDecodeErrMsg))

/-- `FernetHasher.RANDOM_STRING_CHARS = string.ascii_letters + string.digits`:
the 26 lowercase letters, the 26 uppercase letters, then the 10 digits. -/
def RANDOM_STRING_CHARS : List Nat :=
  (List.range 26).map (fun i => 97 + i) ++ (List.range 26).map (fun i => 65 + i) ++
    (List.range 10).map (fun i => 48 + i)

/-- `secrets.choice(RANDOM_STRING_CHARS)` for the `i`-th draw: the external
cryptographically secure source is modelled as an arbitrary function `r`
selecting an index into the alphabet. -/
def secretsChoice (r : Nat → Nat) (i : Nat) : Nat :=
  RANDOM_STRING_CHARS.getD (r i % RANDOM_STRING_CHARS.length) 0

def lengthMsg : String := "Length must be positive"

/-- `FernetHasher._get_random_string`: reject non-positive lengths with
`ValueError`, otherwise join `length` draws from the alphabet. -/
def get_random_string (r : Nat → Nat) (length : Int) : Except PyErr (List Nat) :=
  if length < 1 then .error (.valueError lengthMsg)
  else .ok ((List.range length.toNat).map (secretsChoice r))

/-- Path components of `FernetHasher.KEY_DIR = BASE_DIR / "keys"`; `base`
stands for the `__file__`-derived `BASE_DIR`. -/
def KEY_DIR (base : List (List Nat)) : List (List Nat) := base ++ [[107, 101, 121, 115]]

/-- The bytes of `FernetHasher.KEY_FILE_PREFIX`, the string `key_`. -/
def keyFileStart : List Nat := [107, 101, 121, 95]

/-- The bytes of `FernetHasher.KEY_FILE_EXTENSION`, the string `.key`. -/
def keyFileExt : List Nat := [46, 107, 101, 121]

/-- The observable result of `archive_key`'s `file_path.write_bytes(key)`: the
directory, the file name, and the bytes written (`write_bytes` creates the file
or silently overwrites an existing one). -/
structure ArchivedFile where
  dir : List (List Nat)
  name : List Nat
  contents : List Nat
deriving DecidableEq

def keyBytesMsg : String := "Key must be bytes"

/-- `FernetHasher.archive_key`: require a `bytes` key (`TypeError` otherwise),
then write it to `KEY_DIR / (KEY_FILE_PREFIX + _get_random_string(5) +
KEY_FILE_EXTENSION)` and return the path. -/
def archive_key (base : List (List Nat)) (r : Nat → Nat) (key : PyVal) :
    Except PyErr ArchivedFile :=
  match key with
  | .pyBytes kb =>
    match get_random_string r 5 with
    | .ok sfx => .ok ⟨KEY_DIR base, keyFileStart ++ sfx ++ keyFileExt, kb⟩
    | .error e => .error e
  | _ => .error (.typeError keyBytesMsg)

/-- `FernetHasher.create_key`: SHA-256-hash a fresh random 32-character string
(its UTF-8 encoding; the value is ASCII, so the encoding is the identity on its
code points and always succeeds) and standard-base64-encode the digest;
optionally archive the key.  `rv` and `rs` model the randomness consumed for
the value and for the archive file suffix respectively. -/
def create_key (base : List (List Nat)) (rv rs : Nat → Nat) (archive : Bool) :
    Except PyErr (List Nat × Option ArchivedFile) :=
  match get_random_string rv 32 with
  | .error e => .error e
  | .ok value =>
    let key := b64encode (sha256 ((utf8Encode? value).getD value))
    if archive then
      match archive_key base rs (.pyBytes key) with
      | .ok file => .ok (key, some file)
      | .error e => .error e
    else .ok (key, none)

/-- Modelled from the spec: `FernetHasher.make_key` is defined in
`views/hasher.py`, which is missing from the source snapshot (only its caller
`UI.get_master_password` in `templates/main.py` is present).  Per §4.1 of the
spec, `derive(secret)` computes the SHA-256 hash of the UTF-8 bytes of the
secret and base64-encodes the digest, exactly as `create_key` does for its
random value. -/
def make_key (secret : List Nat) : Except PyErr (List Nat) :=
  match utf8Encode? secret with
  | none => .error (.valueError unicodeEncodeErrMsg)
  | some b => .ok (b64encode (sha256 b))

/-! ## The flat-file `Password` model (`models/password.py`) -/

/-- Python truthiness for the modelled values. -/
def pyTruthy : PyVal → Bool
  | .pyStr s => !s.isEmpty
  | .pyBytes b => !b.isEmpty
  | .pyInt n => decide (n ≠ 0)
  | .pyBool b => b
  | .pyNone => false

/-- Python `str.isspace` characters relevant to `.strip()` (ASCII whitespace). -/
def isPySpace (c : Nat) : Bool :=
  decide (c = 32) || decide (c = 9) || decide (c = 10) ||
    decide (c = 13) || decide (c = 11) || decide (c = 12)

/-- Remove leading and trailing whitespace. -/
def stripWS (l : List Nat) : List Nat :=
  ((l.dropWhile isPySpace).reverse.dropWhile isPySpace).reverse

/-- `.strip()`: defined on `str` and `bytes`; `none` models the
`AttributeError` raised for every other type. -/
def pyStrip : PyVal → Option PyVal
  | .pyStr s => some (.pyStr (stripWS s))
  | .pyBytes b => some (.pyBytes (stripWS b))
  | _ => none

/-- `str.lower()` on the ASCII range. -/
def asciiLower (c : Nat) : Nat := if 65 ≤ c ∧ c ≤ 90 then c + 32 else c

/-- The fields `Password.__init__` assigns (`created_at` is an external clock
read and is omitted). -/
structure PasswordRec where
  domain : List Nat
  password : List Nat
  expires : Bool
deriving DecidableEq

def requiredMsg : String := "Domain and password are required and cannot be whitespace only"

def stringsMsg : String := "Domain and password must be strings"

def expiresMsg : String := "Expires must be a boolean"

def stripAttrMsg : String := "object has no attribute strip"

/-- `Password.__init__` of the flat-file model: first the emptiness check
`not domain or not domain.strip() or not password or not password.strip()`
with Python's left-to-right short-circuit evaluation (each `.strip()` call can
raise `AttributeError`), then the `isinstance` checks on `domain`/`password`
and on `expires`, then the field assignments. -/
def passwordInit (domain password expires : PyVal) : Except PyErr PasswordRec :=
  if !pyTruthy domain then .error (.valueError requiredMsg)
  else match pyStrip domain with
    | none => .error (.attributeError stripAttrMsg)
    | some ds =>
      if !pyTruthy ds then .error (.valueError requiredMsg)
      else if !pyTruthy password then .error (.valueError requiredMsg)
      else match pyStrip password with
        | none => .error (.attributeError stripAttrMsg)
        | some ps =>
          if !pyTruthy ps then .error (.valueError requiredMsg)
          else match domain, password with
            | .pyStr d, .pyStr p =>
              match expires with
              | .pyBool e => .ok ⟨(stripWS d).map asciiLower, p, e⟩
              | _ => .error (.typeError expiresMsg)
            | _, _ => .error (.typeError stringsMsg)

/-! ## Supporting lemmas -/

theorem RANDOM_STRING_CHARS_length : RANDOM_STRING_CHARS.length = 62 := by decide

/-- Is `c` the ASCII code of a character in `{A-Z, a-z, 0-9}`? -/
def isAlnumAscii (c : Nat) : Bool :=
  decide (65 ≤ c ∧ c ≤ 90) || decide (97 ≤ c ∧ c ≤ 122) || decide (48 ≤ c ∧ c ≤ 57)

theorem RANDOM_STRING_CHARS_alnum : ∀ c ∈ RANDOM_STRING_CHARS, isAlnumAscii c = true := by
  decide

theorem RANDOM_STRING_CHARS_ascii : ∀ c ∈ RANDOM_STRING_CHARS, c < 128 := by decide

theorem secretsChoice_mem (r : Nat → Nat) (i : Nat) :
    secretsChoice r i ∈ RANDOM_STRING_CHARS := by
  unfold secretsChoice
  have hlt : r i % RANDOM_STRING_CHARS.length < RANDOM_STRING_CHARS.length :=
    Nat.mod_lt _ (by rw [RANDOM_STRING_CHARS_length]; norm_num)
  rw [List.getD_eq_getElem _ _ hlt]
  exact List.getElem_mem hlt

theorem get_random_string_ok (r : Nat → Nat) (n : Int) (hn : 1 ≤ n) :
    get_random_string r n = .ok ((List.range n.toNat).map (secretsChoice r)) := by
  unfold get_random_string
  rw [if_neg (by omega)]

theorem get_random_string_length (r : Nat → Nat) (n : Int) (hn : 1 ≤ n) (s : List Nat)
    (hs : get_random_string r n = .ok s) : s.length = n.toNat := by
  rw [get_random_string_ok r n hn] at hs
  cases hs
  simp

theorem get_random_string_mem (r : Nat → Nat) (n : Int) (s : List Nat)
    (hs : get_random_string r n = .ok s) : ∀ c ∈ s, c ∈ RANDOM_STRING_CHARS := by
  unfold get_random_string at hs
  split_ifs at hs
  cases hs
  intro c hc
  simp only [List.mem_map] at hc
  obtain ⟨i, _, hi⟩ := hc
  rw [← hi]
  exact secretsChoice_mem r i

/-- ASCII strings are fixed points of UTF-8 encoding. -/
theorem utf8Encode_ascii (s : List Nat) (h : ∀ c ∈ s, c < 128) :
    utf8Encode? s = some s := by
  induction s with
  | nil => rfl
  | cons c cs ih =>
    have hc : c < 128 := h c (by simp)
    simp only [utf8Encode?]
    rw [if_pos (show ValidScalar c from Or.inl (by omega))]
    rw [ih (fun x hx => h x (by simp [hx]))]
    show some (utf8EncodeChar c ++ cs) = some (c :: cs)
    congr 1
    unfold utf8EncodeChar
    rw [if_pos hc]
    rfl

/-- The random value generated by `create_key`. -/
def createKeyValue (rv : Nat → Nat) : List Nat := (List.range 32).map (secretsChoice rv)

/-- The key generated by `create_key`. -/
def createKeyKey (rv : Nat → Nat) : List Nat := b64encode (sha256 (createKeyValue rv))

theorem create_key_no_archive (base : List (List Nat)) (rv rs : Nat → Nat) :
    create_key base rv rs false = .ok (createKeyKey rv, none) := by
  unfold create_key
  rw [get_random_string_ok rv 32 (by norm_num)]
  have henc : utf8Encode? ((List.range (Int.toNat 32)).map (secretsChoice rv)) =
      some ((List.range (Int.toNat 32)).map (secretsChoice rv)) := by
    apply utf8Encode_ascii
    intro c hc
    simp only [List.mem_map] at hc
    obtain ⟨i, _, hi⟩ := hc
    exact RANDOM_STRING_CHARS_ascii c (hi ▸ secretsChoice_mem rv i)
  simp only [henc, Option.getD_some, if_neg]
  rfl

theorem create_key_archive (base : List (List Nat)) (rv rs : Nat → Nat) :
    create_key base rv rs true =
      .ok (createKeyKey rv,
        some ⟨KEY_DIR base, keyFileStart ++ (List.range 5).map (secretsChoice rs) ++ keyFileExt,
          createKeyKey rv⟩) := by
  unfold create_key
  rw [get_random_string_ok rv 32 (by norm_num)]
  have henc : utf8Encode? ((List.range (Int.toNat 32)).map (secretsChoice rv)) =
      some ((List.range (Int.toNat 32)).map (secretsChoice rv)) := by
    apply utf8Encode_ascii
    intro c hc
    simp only [List.mem_map] at hc
    obtain ⟨i, _, hi⟩ := hc
    exact RANDOM_STRING_CHARS_ascii c (hi ▸ secretsChoice_mem rv i)
  simp only [henc, Option.getD_some]
  unfold archive_key
  rw [get_random_string_ok rs 5 (by norm_num)]
  rfl

/-- The key produced by `create_key` is a valid Fernet key: it URL-safe
base64-decodes (the standard and URL-safe alphabets agree on the characters
the encoder emits) to the 32-byte SHA-256 digest. -/
theorem fernet_ofKey_decoded (key decoded : List Nat)
    (hd : urlsafe_b64decode key = some decoded) (hlen : decoded.length = 32) :
    Fernet.ofKey key = .ok ⟨decoded⟩ := by
  unfold Fernet.ofKey
  rw [hd]
  show (if decoded.length = 32 then Except.ok (Fernet.mk decoded) else
    Except.error (PyErr.valueError fernetKeyMsg)) = Except.ok (Fernet.mk decoded)
  rw [if_pos hlen]

theorem fernet_ofKey_createKey (rv : Nat → Nat) :
    Fernet.ofKey (createKeyKey rv) = .ok ⟨sha256 (createKeyValue rv)⟩ :=
  fernet_ofKey_decoded _ _
    (urlsafe_b64decode_encode _ (sha256_bytes_lt _)) (sha256_length _)

theorem utf8Encode_isSome (s : List Nat) (h : ∀ c ∈ s, ValidScalar c) :
    ∃ bs, utf8Encode? s = some bs := by
  induction s with
  | nil => exact ⟨[], rfl⟩
  | cons c cs ih =>
    obtain ⟨bs, hbs⟩ := ih (fun x hx => h x (by simp [hx]))
    refine ⟨utf8EncodeChar c ++ bs, ?_⟩
    simp only [utf8Encode?]
    rw [if_pos (h c (by simp)), hbs]
    rfl

theorem init_bytes_of_ofKey (kb : List Nat) (f : Fernet) (h : Fernet.ofKey kb = .ok f) :
    FernetHasher.init (.pyBytes kb) = .ok ⟨f⟩ := by
  simp only [FernetHasher.init, h]

theorem fernet_ofKey_length (kb : List Nat) (f : Fernet) (h : Fernet.ofKey kb = .ok f) :
    f.keyBytes.length = 32 := by
  unfold Fernet.ofKey at h
  cases hd : urlsafe_b64decode kb with
  | none => rw [hd] at h; cases h
  | some d =>
    rw [hd] at h
    simp only at h
    split_ifs at h with hl
    injection h with h
    rw [← h]
    exact hl

/-- Inversion for `FernetHasher.init`: a successful construction always comes
from a successful `Fernet` construction. -/
theorem init_ok_inv (key : PyVal) (h : FernetHasher)
    (hi : FernetHasher.init key = .ok h) : Fernet.ofKey h.fernet.keyBytes = .ok h.fernet ∨
      ∃ kb, Fernet.ofKey kb = .ok h.fernet := by
  right
  cases key with
  | pyStr s =>
    simp only [FernetHasher.init] at hi
    cases he : utf8Encode? s with
    | none => simp only [he] at hi; exact Except.noConfusion hi
    | some kb =>
      simp only [he] at hi
      cases hf : Fernet.ofKey kb with
      | error e => simp only [hf] at hi; exact Except.noConfusion hi
      | ok f =>
        simp only [hf] at hi
        injection hi with hi
        exact ⟨kb, by rw [hf, ← hi]⟩
  | pyBytes kb =>
    simp only [FernetHasher.init] at hi
    cases hf : Fernet.ofKey kb with
    | error e => simp only [hf] at hi; exact Except.noConfusion hi
    | ok f =>
      simp only [hf] at hi
      injection hi with hi
      exact ⟨kb, by rw [hf, ← hi]⟩
  | pyInt n => cases hi
  | pyBool b => cases hi
  | pyNone => cases hi

theorem init_ok_keyLength (key : PyVal) (h : FernetHasher)
    (hi : FernetHasher.init key = .ok h) : h.fernet.keyBytes.length = 32 := by
  rcases init_ok_inv key h hi with hk | ⟨kb, hk⟩
  · exact fernet_ofKey_length _ _ hk
  · exact fernet_ofKey_length _ _ hk

theorem encrypt_bytes_ok (h : FernetHasher) (time : Nat) (iv b : List Nat) :
    h.encrypt time iv (.pyBytes b) = .ok (h.fernet.encryptAtTime time iv b) := rfl

theorem encrypt_str_ok (h : FernetHasher) (time : Nat) (iv : List Nat)
    (s bs : List Nat) (henc : utf8Encode? s = some bs) :
    h.encrypt time iv (.pyStr s) = .ok (h.fernet.encryptAtTime time iv bs) := by
  simp only [FernetHasher.encrypt, henc]

/-- Any token produced by `encrypt` carries the instance's key. -/
theorem encrypt_ok_keyBytes (h : FernetHasher) (time : Nat) (iv : List Nat)
    (v : PyVal) (tok : FernetToken) (he : h.encrypt time iv v = .ok tok) :
    tok.keyBytes = h.fernet.keyBytes := by
  cases v with
  | pyStr s =>
    simp only [FernetHasher.encrypt] at he
    cases henc : utf8Encode? s with
    | none => simp only [henc] at he; exact Except.noConfusion he
    | some b =>
      simp only [henc] at he
      injection he with he
      rw [← he]
      rfl
  | pyBytes b =>
    injection he with he
    rw [← he]
    rfl
  | pyInt n => cases he
  | pyBool b => cases he
  | pyNone => cases he

theorem decryptTok_pos (f : Fernet) (tok : FernetToken) (hk : tok.keyBytes = f.keyBytes) :
    f.decryptTok tok = some tok.data := by
  unfold Fernet.decryptTok
  rw [if_pos hk]

theorem decryptTok_neg (f : Fernet) (tok : FernetToken) (hk : tok.keyBytes ≠ f.keyBytes) :
    f.decryptTok tok = none := by
  unfold Fernet.decryptTok
  rw [if_neg hk]

/-- A token carrying a different key fails with the `InvalidToken` wrapper. -/
theorem decrypt_wrong_key (h : FernetHasher) (tok : FernetToken)
    (hk : tok.keyBytes ≠ h.fernet.keyBytes) :
    h.decrypt (.tok tok) = .error (.valueError invalidTokenMsg) := by
  simp only [FernetHasher.decrypt, decryptTok_neg _ _ hk]

/-- A token carrying the instance's key decrypts to the UTF-8 decoding of its
plaintext bytes, or fails with the `DecryptionFailed` wrapper. -/
theorem decrypt_right_key (h : FernetHasher) (tok : FernetToken)
    (hk : tok.keyBytes = h.fernet.keyBytes) :
    h.decrypt (.tok tok) =
      match utf8Decode tok.data with
      | some s => .ok s
      | none => .error (.valueError (decryptFailedMsg unicodeDecodeErrMsg)) := by
  simp only [FernetHasher.decrypt, decryptTok_pos _ _ hk]

theorem decrypt_ok_inv (h : FernetHasher) (tok : FernetToken) (s : List Nat)
    (hd : h.decrypt (.tok tok) = .ok s) :
    tok.keyBytes = h.fernet.keyBytes ∧ utf8Decode tok.data = some s := by
  by_cases hk : tok.keyBytes = h.fernet.keyBytes
  · refine ⟨hk, ?_⟩
    rw [decrypt_right_key h tok hk] at hd
    cases hdec : utf8Decode tok.data with
    | none => rw [hdec] at hd; cases hd
    | some s' =>
      rw [hdec] at hd
      injection hd with hd
      rw [hd]
  · rw [decrypt_wrong_key h tok hk] at hd
    cases hd

/-! ## The claims -/

/-- C1: Encrypt/decrypt round-trip.  For every key accepted by the
`FernetHasher` constructor and every non-empty string plaintext (any list of
Unicode scalar values accepted by `str.encode`), decrypting the result of
`encrypt` on the same instance returns the plaintext unchanged. -/
theorem claim1_round_trip (key : PyVal) (h : FernetHasher)
    (hinit : FernetHasher.init key = .ok h)
    (s : List Nat) (hne : s ≠ []) (hval : ∀ c ∈ s, ValidScalar c)
    (time : Nat) (iv : List Nat) :
    ∃ tok, h.encrypt time iv (.pyStr s) = .ok tok ∧ h.decrypt (.tok tok) = .ok s := by
  obtain ⟨bs, hbs⟩ := utf8Encode_isSome s hval
  refine ⟨h.fernet.encryptAtTime time iv bs, encrypt_str_ok h time iv s bs hbs, ?_⟩
  rw [decrypt_right_key h _ rfl]
  simp only [Fernet.encryptAtTime]
  rw [utf8Decode_encode s bs hbs]

theorem claim1_round_trip_witness :
    ∃ tok, (FernetHasher.mk ⟨List.replicate 32 65⟩).encrypt 0 []
        (.pyStr [104, 117, 110, 116, 101, 114, 50]) = .ok tok ∧
      (FernetHasher.mk ⟨List.replicate 32 65⟩).decrypt (.tok tok) =
        .ok [104, 117, 110, 116, 101, 114, 50] :=
  claim1_round_trip (.pyBytes (b64encode (List.replicate 32 65))) _ (by decide)
    [104, 117, 110, 116, 101, 114, 50] (by decide) (by decide) 0 []

/-- C2: Tamper detection.  A token produced under key A fails with the
`InvalidToken` wrapper (`ValueError`) when decrypted under a different valid
key B; more generally any token not carrying the instance's key fails that
way; and a successful decryption only ever returns the UTF-8 decoding of the
exact plaintext carried by a token produced under the same key — never a
different plaintext. -/
theorem claim2_tamper_detection (kA kB : PyVal) (hA hB : FernetHasher)
    (hiA : FernetHasher.init kA = .ok hA) (hiB : FernetHasher.init kB = .ok hB)
    (hne : hA.fernet.keyBytes ≠ hB.fernet.keyBytes) :
    (∀ time iv v tok, hA.encrypt time iv v = .ok tok →
      hB.decrypt (.tok tok) = .error (.valueError invalidTokenMsg)) ∧
    (∀ tok : FernetToken, tok.keyBytes ≠ hB.fernet.keyBytes →
      hB.decrypt (.tok tok) = .error (.valueError invalidTokenMsg)) ∧
    (∀ tok s, hB.decrypt (.tok tok) = .ok s →
      tok.keyBytes = hB.fernet.keyBytes ∧ utf8Decode tok.data = some s) := by
  refine ⟨?_, ?_, ?_⟩
  · intro time iv v tok he
    have hk := encrypt_ok_keyBytes hA time iv v tok he
    exact decrypt_wrong_key hB tok (by rw [hk]; exact hne)
  · intro tok hk
    exact decrypt_wrong_key hB tok hk
  · intro tok s hd
    exact decrypt_ok_inv hB tok s hd

theorem claim2_tamper_detection_witness :
    (∀ time iv v tok, (FernetHasher.mk ⟨List.replicate 32 65⟩).encrypt time iv v = .ok tok →
      (FernetHasher.mk ⟨List.replicate 32 66⟩).decrypt (.tok tok) =
        .error (.valueError invalidTokenMsg)) ∧
    (∀ tok : FernetToken, tok.keyBytes ≠ (List.replicate 32 66) →
      (FernetHasher.mk ⟨List.replicate 32 66⟩).decrypt (.tok tok) =
        .error (.valueError invalidTokenMsg)) ∧
    (∀ tok s, (FernetHasher.mk ⟨List.replicate 32 66⟩).decrypt (.tok tok) = .ok s →
      tok.keyBytes = (List.replicate 32 66) ∧ utf8Decode tok.data = some s) :=
  claim2_tamper_detection
    (.pyBytes (b64encode (List.replicate 32 65))) (.pyBytes (b64encode (List.replicate 32 66)))
    _ _ (by decide) (by decide) (by decide)

/-- C9: Bytes plaintexts that are not valid UTF-8 do not round-trip: `encrypt`
accepts them, but `decrypt` of the resulting token fails with the
`DecryptionFailed` wrapper (`ValueError` around the `UnicodeDecodeError` from
the final `.decode()`), rather than returning the bytes. -/
theorem claim9_non_utf8_no_roundtrip (key : PyVal) (h : FernetHasher)
    (hinit : FernetHasher.init key = .ok h)
    (P : List Nat) (hP : utf8Decode P = none) (time : Nat) (iv : List Nat) :
    h.encrypt time iv (.pyBytes P) = .ok (h.fernet.encryptAtTime time iv P) ∧
    h.decrypt (.tok (h.fernet.encryptAtTime time iv P)) =
      .error (.valueError (decryptFailedMsg unicodeDecodeErrMsg)) := by
  refine ⟨encrypt_bytes_ok h time iv P, ?_⟩
  rw [decrypt_right_key h _ rfl]
  simp only [Fernet.encryptAtTime]
  rw [hP]

theorem claim9_non_utf8_no_roundtrip_witness :
    (FernetHasher.mk ⟨List.replicate 32 65⟩).encrypt 0 [] (.pyBytes [128]) =
      .ok ((Fernet.mk (List.replicate 32 65)).encryptAtTime 0 [] [128]) ∧
    (FernetHasher.mk ⟨List.replicate 32 65⟩).decrypt
        (.tok ((Fernet.mk (List.replicate 32 65)).encryptAtTime 0 [] [128])) =
      .error (.valueError (decryptFailedMsg unicodeDecodeErrMsg)) :=
  claim9_non_utf8_no_roundtrip (.pyBytes (b64encode (List.replicate 32 65))) _ (by decide)
    [128] (by decide) 0 []

theorem fernet_ofKey_bad_length (kb decoded : List Nat)
    (hd : urlsafe_b64decode kb = some decoded) (hlen : decoded.length ≠ 32) :
    Fernet.ofKey kb = .error (.valueError fernetKeyMsg) := by
  unfold Fernet.ofKey
  rw [hd]
  show (if decoded.length = 32 then Except.ok (Fernet.mk decoded) else
    Except.error (PyErr.valueError fernetKeyMsg)) = Except.error (PyErr.valueError fernetKeyMsg)
  rw [if_neg hlen]

theorem fernet_ofKey_bad_decode (kb : List Nat) (hd : urlsafe_b64decode kb = none) :
    Fernet.ofKey kb = .error (.valueError fernetKeyMsg) := by
  unfold Fernet.ofKey
  rw [hd]

theorem init_bytes_of_ofKey_error (kb : List Nat) (e : PyErr)
    (h : Fernet.ofKey kb = .error e) :
    FernetHasher.init (.pyBytes kb) = .error (.valueError ("Invalid key: " ++ pyErrMsg e)) := by
  simp only [FernetHasher.init, h]

theorem init_str_of_ofKey_error (s kb : List Nat) (e : PyErr)
    (henc : utf8Encode? s = some kb) (h : Fernet.ofKey kb = .error e) :
    FernetHasher.init (.pyStr s) = .error (.valueError ("Invalid key: " ++ pyErrMsg e)) := by
  simp only [FernetHasher.init, henc, h]

/-- On a successfully constructed instance, `decrypt` can only fail with the
wrong-type `TypeError`, the `InvalidToken` wrapper, or the `DecryptionFailed`
wrapper — never with a key error. -/
theorem decrypt_error_inv (h : FernetHasher) (v : TokenVal) (e : PyErr)
    (hd : h.decrypt v = .error e) :
    e = .typeError typeErrValueMsg ∨ e = .valueError invalidTokenMsg ∨
      e = .valueError (decryptFailedMsg unicodeDecodeErrMsg) := by
  cases v with
  | other => injection hd with hd; exact Or.inl hd.symm
  | malformed => injection hd with hd; exact Or.inr (Or.inl hd.symm)
  | tok tk =>
    by_cases hk : tk.keyBytes = h.fernet.keyBytes
    · rw [decrypt_right_key h tk hk] at hd
      cases hdec : utf8Decode tk.data with
      | none =>
        rw [hdec] at hd
        injection hd with hd
        exact Or.inr (Or.inr hd.symm)
      | some s => rw [hdec] at hd; cases hd
    · rw [decrypt_wrong_key h tk hk] at hd
      injection hd with hd
      exact Or.inr (Or.inl hd.symm)

/-- C4: Key validity at construction.  Any key (bytes, or string via its UTF-8
encoding) whose URL-safe base64 decoding does not yield exactly 32 bytes —
including keys that do not decode at all — makes the `FernetHasher`
constructor fail with the `InvalidKey` `ValueError`; and on any successfully
constructed instance the validated 32-byte key is fixed, `encrypt` accepts
every bytes value, and `decrypt` never fails with the key error. -/
theorem claim4_invalid_key_at_construction :
    (∀ kb decoded, urlsafe_b64decode kb = some decoded → decoded.length ≠ 32 →
      FernetHasher.init (.pyBytes kb) =
        .error (.valueError ("Invalid key: " ++ fernetKeyMsg))) ∧
    (∀ kb, urlsafe_b64decode kb = none →
      FernetHasher.init (.pyBytes kb) =
        .error (.valueError ("Invalid key: " ++ fernetKeyMsg))) ∧
    (∀ s kb decoded, utf8Encode? s = some kb → urlsafe_b64decode kb = some decoded →
      decoded.length ≠ 32 →
      FernetHasher.init (.pyStr s) =
        .error (.valueError ("Invalid key: " ++ fernetKeyMsg))) ∧
    (∀ key h, FernetHasher.init key = .ok h →
      h.fernet.keyBytes.length = 32 ∧
      (∀ time iv b, h.encrypt time iv (.pyBytes b) = .ok (h.fernet.encryptAtTime time iv b)) ∧
      (∀ v e, h.decrypt v = .error e →
        e = .typeError typeErrValueMsg ∨ e = .valueError invalidTokenMsg ∨
          e = .valueError (decryptFailedMsg unicodeDecodeErrMsg))) := by
  refine ⟨?_, ?_, ?_, ?_⟩
  · intro kb decoded hd hlen
    exact init_bytes_of_ofKey_error kb _ (fernet_ofKey_bad_length kb decoded hd hlen)
  · intro kb hd
    exact init_bytes_of_ofKey_error kb _ (fernet_ofKey_bad_decode kb hd)
  · intro s kb decoded henc hd hlen
    exact init_str_of_ofKey_error s kb _ henc (fernet_ofKey_bad_length kb decoded hd hlen)
  · intro key h hi
    exact ⟨init_ok_keyLength key h hi, fun time iv b => encrypt_bytes_ok h time iv b,
      fun v e hd => decrypt_error_inv h v e hd⟩

theorem claim4_invalid_key_at_construction_witness :
    FernetHasher.init (.pyBytes (b64encode (List.replicate 31 0))) =
      .error (.valueError ("Invalid key: " ++ fernetKeyMsg)) ∧
    ((FernetHasher.mk ⟨List.replicate 32 65⟩).fernet.keyBytes.length = 32 ∧
      (∀ time iv b, (FernetHasher.mk ⟨List.replicate 32 65⟩).encrypt time iv (.pyBytes b) =
        .ok ((Fernet.mk (List.replicate 32 65)).encryptAtTime time iv b)) ∧
      (∀ v e, (FernetHasher.mk ⟨List.replicate 32 65⟩).decrypt v = .error e →
        e = .typeError typeErrValueMsg ∨ e = .valueError invalidTokenMsg ∨
          e = .valueError (decryptFailedMsg unicodeDecodeErrMsg))) :=
  ⟨claim4_invalid_key_at_construction.1 (b64encode (List.replicate 31 0))
      (List.replicate 31 0) (by decide) (by decide),
   claim4_invalid_key_at_construction.2.2.2 (.pyBytes (b64encode (List.replicate 32 65)))
      _ (by decide)⟩

/-- C5: Every key returned by `create_key` — standard-base64 text of a 32-byte
SHA-256 digest — is accepted by the `FernetHasher` constructor, because
CPython's URL-safe base64 decoder also accepts the standard alphabet. -/
theorem claim5_create_key_suitable (base : List (List Nat)) (rv rs : Nat → Nat)
    (archive : Bool) :
    ∃ key arch, create_key base rv rs archive = .ok (key, arch) ∧
      FernetHasher.init (.pyBytes key) = .ok ⟨⟨sha256 (createKeyValue rv)⟩⟩ := by
  have hinit : FernetHasher.init (.pyBytes (createKeyKey rv)) =
      .ok ⟨⟨sha256 (createKeyValue rv)⟩⟩ :=
    init_bytes_of_ofKey _ _ (fernet_ofKey_createKey rv)
  cases archive with
  | false => exact ⟨createKeyKey rv, none, create_key_no_archive base rv rs, hinit⟩
  | true => exact ⟨createKeyKey rv, some _, create_key_archive base rv rs, hinit⟩

/-- C3: Key derivation is deterministic and shape-correct: `make_key` (derive)
of any non-empty encodable secret always returns the same key — the standard
base64 encoding of the 32-byte SHA-256 digest of the secret's UTF-8 bytes —
and that key is a 44-character base64 string decoding back to the digest. -/
theorem claim3_make_key_deterministic (s b : List Nat) (hne : s ≠ [])
    (henc : utf8Encode? s = some b) :
    make_key s = make_key s ∧
    make_key s = .ok (b64encode (sha256 b)) ∧
    ∀ k, make_key s = .ok k →
      k.length = 44 ∧ b64decode k = some (sha256 b) ∧ (sha256 b).length = 32 := by
  have hmk : make_key s = .ok (b64encode (sha256 b)) := by
    simp only [make_key, henc]
  refine ⟨rfl, hmk, ?_⟩
  intro k hk
  rw [hmk] at hk
  injection hk with hk
  subst hk
  refine ⟨?_, b64decode_encode _ (sha256_bytes_lt _), sha256_length _⟩
  rw [b64encode_length, sha256_length]

theorem claim3_make_key_deterministic_witness :
    make_key [112, 119] = make_key [112, 119] ∧
    make_key [112, 119] = .ok (b64encode (sha256 [112, 119])) ∧
    ∀ k, make_key [112, 119] = .ok k →
      k.length = 44 ∧ b64decode k = some (sha256 [112, 119]) ∧
        (sha256 [112, 119]).length = 32 :=
  claim3_make_key_deterministic [112, 119] [112, 119] (by decide) (by decide)

/-- C8: Random-string length and alphabet: `_get_random_string(n)` returns
exactly `n` characters, all from the 62-character alphabet `{A-Z, a-z, 0-9}`,
for every `n ≥ 1`, and fails with the `InvalidInput` `ValueError` for every
`n ≤ 0` before producing anything. -/
theorem claim8_random_string_length_alphabet (r : Nat → Nat) (n : Int) :
    (n < 1 → get_random_string r n = .error (.valueError lengthMsg)) ∧
    (1 ≤ n → ∃ s, get_random_string r n = .ok s ∧ s.length = n.toNat ∧
      s.all isAlnumAscii = true ∧ ∀ c ∈ s, c ∈ RANDOM_STRING_CHARS) ∧
    RANDOM_STRING_CHARS.length = 62 := by
  refine ⟨fun hn => ?_, fun hn => ?_, RANDOM_STRING_CHARS_length⟩
  · unfold get_random_string
    rw [if_pos hn]
  · refine ⟨_, get_random_string_ok r n hn, by simp, ?_, ?_⟩
    · rw [List.all_eq_true]
      intro c hc
      simp only [List.mem_map] at hc
      obtain ⟨i, _, hi⟩ := hc
      exact RANDOM_STRING_CHARS_alnum _ (hi ▸ secretsChoice_mem r i)
    · intro c hc
      simp only [List.mem_map] at hc
      obtain ⟨i, _, hi⟩ := hc
      exact hi ▸ secretsChoice_mem r i

theorem claim8_random_string_length_alphabet_witness :
    get_random_string (fun _ => 0) 0 = .error (.valueError lengthMsg) ∧
    ∃ s, get_random_string (fun _ => 0) 10 = .ok s ∧ s.length = (10 : Int).toNat ∧
      s.all isAlnumAscii = true ∧ ∀ c ∈ s, c ∈ RANDOM_STRING_CHARS :=
  ⟨(claim8_random_string_length_alphabet (fun _ => 0) 0).1 (by decide),
   (claim8_random_string_length_alphabet (fun _ => 0) 10).2.1 (by decide)⟩

/-- C7: Archival naming: a successful `create_key(archive=True)` writes a file
that lies under the key directory, whose name is `key_` followed by five
characters from the alphabet `{A-Z, a-z, 0-9}` followed by `.key`, and whose
bytes equal the returned key. -/
theorem claim7_archive_naming (base : List (List Nat)) (rv rs : Nat → Nat)
    (k : List Nat) (f : ArchivedFile)
    (h : create_key base rv rs true = .ok (k, some f)) :
    f.dir = KEY_DIR base ∧
    (∃ sfx, f.name = keyFileStart ++ sfx ++ keyFileExt ∧ sfx.length = 5 ∧
      sfx.all isAlnumAscii = true) ∧
    f.contents = k := by
  rw [create_key_archive base rv rs] at h
  injection h with h
  injection h with hk hf
  injection hf with hf
  subst hk
  subst hf
  refine ⟨rfl, ⟨(List.range 5).map (secretsChoice rs), rfl, by simp, ?_⟩, rfl⟩
  rw [List.all_eq_true]
  intro c hc
  simp only [List.mem_map] at hc
  obtain ⟨i, _, hi⟩ := hc
  exact RANDOM_STRING_CHARS_alnum _ (hi ▸ secretsChoice_mem rs i)

theorem claim7_archive_naming_witness :
    (ArchivedFile.mk (KEY_DIR [])
        (keyFileStart ++ (List.range 5).map (secretsChoice (fun _ => 0)) ++ keyFileExt)
        (createKeyKey (fun _ => 0))).dir = KEY_DIR [] ∧
    (∃ sfx, (ArchivedFile.mk (KEY_DIR [])
        (keyFileStart ++ (List.range 5).map (secretsChoice (fun _ => 0)) ++ keyFileExt)
        (createKeyKey (fun _ => 0))).name = keyFileStart ++ sfx ++ keyFileExt ∧
      sfx.length = 5 ∧ sfx.all isAlnumAscii = true) ∧
    (ArchivedFile.mk (KEY_DIR [])
        (keyFileStart ++ (List.range 5).map (secretsChoice (fun _ => 0)) ++ keyFileExt)
        (createKeyKey (fun _ => 0))).contents = createKeyKey (fun _ => 0) :=
  claim7_archive_naming [] (fun _ => 0) (fun _ => 0) _ _
    (create_key_archive [] (fun _ => 0) (fun _ => 0))

/-- C6 (amended): every successful `create_key(archive=True)` returns a file
path and writes exactly the returned (base64-encoded) key as the file's
contents; two archival calls produce distinct file names whenever their
5-character random suffixes differ — but the code does not itself guarantee
distinct suffixes, and `write_bytes` silently overwrites on a collision. -/
theorem claim6_archive_contents_and_distinct_paths :
    (∀ base rv rs, ∃ k f, create_key base rv rs true = .ok (k, some f) ∧
      f.contents = k) ∧
    (∀ base rv1 rs1 rv2 rs2 k1 f1 k2 f2,
      create_key base rv1 rs1 true = .ok (k1, some f1) →
      create_key base rv2 rs2 true = .ok (k2, some f2) →
      (List.range 5).map (secretsChoice rs1) ≠ (List.range 5).map (secretsChoice rs2) →
      f1.name ≠ f2.name) := by
  constructor
  · intro base rv rs
    exact ⟨_, _, create_key_archive base rv rs, rfl⟩
  · intro base rv1 rs1 rv2 rs2 k1 f1 k2 f2 h1 h2 hsfx
    rw [create_key_archive base rv1 rs1] at h1
    rw [create_key_archive base rv2 rs2] at h2
    injection h1 with h1
    injection h1 with hk1 hf1
    injection hf1 with hf1
    injection h2 with h2
    injection h2 with hk2 hf2
    injection hf2 with hf2
    subst hf1
    subst hf2
    intro hname
    apply hsfx
    simp only [List.append_assoc] at hname
    have h' := List.append_cancel_left hname
    exact List.append_cancel_right h'

/-- C6 counterexample to the claim as stated: two successful archival calls
(with different generated keys) whose random 5-character suffixes happen to
coincide produce the same directory and the same file name. -/
theorem claim6_distinct_paths_counterexample :
    ∃ k1 f1 k2 f2,
      create_key [] (fun _ => 0) (fun _ => 0) true = .ok (k1, some f1) ∧
      create_key [] (fun _ => 1) (fun _ => 0) true = .ok (k2, some f2) ∧
      f1.dir = f2.dir ∧ f1.name = f2.name :=
  ⟨_, _, _, _, create_key_archive [] (fun _ => 0) (fun _ => 0),
    create_key_archive [] (fun _ => 1) (fun _ => 0), rfl, rfl⟩

theorem claim6_archive_witness :
    (∃ k f, create_key [] (fun _ => 0) (fun _ => 0) true = .ok (k, some f) ∧
      f.contents = k) ∧
    (ArchivedFile.mk (KEY_DIR [])
        (keyFileStart ++ (List.range 5).map (secretsChoice (fun _ => 0)) ++ keyFileExt)
        (createKeyKey (fun _ => 0))).name ≠
      (ArchivedFile.mk (KEY_DIR [])
        (keyFileStart ++ (List.range 5).map (secretsChoice (fun _ => 1)) ++ keyFileExt)
        (createKeyKey (fun _ => 1))).name :=
  ⟨claim6_archive_contents_and_distinct_paths.1 [] (fun _ => 0) (fun _ => 0),
   claim6_archive_contents_and_distinct_paths.2 [] (fun _ => 0) (fun _ => 0)
     (fun _ => 1) (fun _ => 1) _ _ _ _
     (create_key_archive [] (fun _ => 0) (fun _ => 0))
     (create_key_archive [] (fun _ => 1) (fun _ => 1)) (by decide)⟩

/-- Does the value have Python type `str`? -/
def isPyStr : PyVal → Bool
  | .pyStr _ => true
  | _ => false

theorem passwordInit_not_truthy (d p e : PyVal) (h1 : pyTruthy d = false) :
    passwordInit d p e = .error (.valueError requiredMsg) := by
  simp [passwordInit, h1]

theorem passwordInit_domain_no_strip (d p e : PyVal) (h1 : pyTruthy d = true)
    (h2 : pyStrip d = none) :
    passwordInit d p e = .error (.attributeError stripAttrMsg) := by
  simp [passwordInit, h1, h2]

theorem passwordInit_domain_blank (d p e ds : PyVal) (h1 : pyTruthy d = true)
    (h2 : pyStrip d = some ds) (h3 : pyTruthy ds = false) :
    passwordInit d p e = .error (.valueError requiredMsg) := by
  simp [passwordInit, h1, h2, h3]

theorem passwordInit_password_not_truthy (d p e ds : PyVal) (h1 : pyTruthy d = true)
    (h2 : pyStrip d = some ds) (h3 : pyTruthy ds = true) (h4 : pyTruthy p = false) :
    passwordInit d p e = .error (.valueError requiredMsg) := by
  simp [passwordInit, h1, h2, h3, h4]

theorem passwordInit_password_no_strip (d p e ds : PyVal) (h1 : pyTruthy d = true)
    (h2 : pyStrip d = some ds) (h3 : pyTruthy ds = true) (h4 : pyTruthy p = true)
    (h5 : pyStrip p = none) :
    passwordInit d p e = .error (.attributeError stripAttrMsg) := by
  simp [passwordInit, h1, h2, h3, h4, h5]

theorem passwordInit_password_blank (d p e ds ps : PyVal) (h1 : pyTruthy d = true)
    (h2 : pyStrip d = some ds) (h3 : pyTruthy ds = true) (h4 : pyTruthy p = true)
    (h5 : pyStrip p = some ps) (h6 : pyTruthy ps = false) :
    passwordInit d p e = .error (.valueError requiredMsg) := by
  simp [passwordInit, h1, h2, h3, h4, h5, h6]

/-- When both arguments are `str` and pass the emptiness check, `__init__`
reaches the `expires` check, never the domain/password `TypeError`. -/
theorem passwordInit_str_str (sd sp : List Nat) (e : PyVal)
    (h1 : pyTruthy (.pyStr sd) = true) (h3 : pyTruthy (.pyStr (stripWS sd)) = true)
    (h4 : pyTruthy (.pyStr sp) = true) (h6 : pyTruthy (.pyStr (stripWS sp)) = true) :
    passwordInit (.pyStr sd) (.pyStr sp) e =
      match e with
      | .pyBool b => .ok ⟨(stripWS sd).map asciiLower, sp, b⟩
      | _ => .error (.typeError expiresMsg) := by
  simp [passwordInit, pyStrip, h1, h3, h4, h6]

/-- C10 (amended): in `Password.__init__` the emptiness check runs before the
`isinstance` checks, so every truthy domain or password *without a `.strip`
method* (e.g. an integer) raises `AttributeError` from `.strip()`; the
`TypeError` branch for non-string domain/password is reachable, but only for
non-string values that do support `.strip` (e.g. `bytes`). -/
theorem claim10_password_validation_order :
    (∀ d p e, pyTruthy d = true → pyStrip d = none →
      passwordInit d p e = .error (.attributeError stripAttrMsg)) ∧
    (∀ d p e ds, pyTruthy d = true → pyStrip d = some ds → pyTruthy ds = true →
      pyTruthy p = true → pyStrip p = none →
      passwordInit d p e = .error (.attributeError stripAttrMsg)) ∧
    (∀ d p e, passwordInit d p e = .error (.typeError stringsMsg) →
      pyStrip d ≠ none ∧ pyStrip p ≠ none ∧
        (isPyStr d = false ∨ isPyStr p = false)) := by
  refine ⟨passwordInit_domain_no_strip, passwordInit_password_no_strip, ?_⟩
  intro d p e h
  cases h1 : pyTruthy d with
  | false =>
    rw [passwordInit_not_truthy d p e h1] at h
    injection h with h
    exact absurd h (by simp)
  | true =>
    cases h2 : pyStrip d with
    | none =>
      rw [passwordInit_domain_no_strip d p e h1 h2] at h
      injection h with h
      exact absurd h (by simp)
    | some ds =>
      cases h3 : pyTruthy ds with
      | false =>
        rw [passwordInit_domain_blank d p e ds h1 h2 h3] at h
        injection h with h
        exact absurd h (by simp)
      | true =>
        cases h4 : pyTruthy p with
        | false =>
          rw [passwordInit_password_not_truthy d p e ds h1 h2 h3 h4] at h
          injection h with h
          exact absurd h (by simp)
        | true =>
          cases h5 : pyStrip p with
          | none =>
            rw [passwordInit_password_no_strip d p e ds h1 h2 h3 h4 h5] at h
            injection h with h
            exact absurd h (by simp)
          | some ps =>
            cases h6 : pyTruthy ps with
            | false =>
              rw [passwordInit_password_blank d p e ds ps h1 h2 h3 h4 h5 h6] at h
              injection h with h
              exact absurd h (by simp)
            | true =>
              refine ⟨fun hx => Option.noConfusion hx,
                fun hx => Option.noConfusion hx, ?_⟩
              cases d with
              | pyStr sd =>
                cases p with
                | pyStr sp =>
                  exfalso
                  have hds : ds = .pyStr (stripWS sd) := by
                    simp only [pyStrip, Option.some.injEq] at h2
                    exact h2.symm
                  have hps : ps = .pyStr (stripWS sp) := by
                    simp only [pyStrip, Option.some.injEq] at h5
                    exact h5.symm
                  rw [passwordInit_str_str sd sp e h1 (hds ▸ h3) h4 (hps ▸ h6)] at h
                  cases e with
                  | pyBool b => cases h
                  | pyStr s => injection h with h; exact absurd h (by simp [expiresMsg, stringsMsg])
                  | pyBytes b => injection h with h; exact absurd h (by simp [expiresMsg, stringsMsg])
                  | pyInt n => injection h with h; exact absurd h (by simp [expiresMsg, stringsMsg])
                  | pyNone => injection h with h; exact absurd h (by simp [expiresMsg, stringsMsg])
                | pyBytes b => exact Or.inr rfl
                | pyInt n => exact Or.inr rfl
                | pyBool b => exact Or.inr rfl
                | pyNone => exact Or.inr rfl
              | pyBytes b => exact Or.inl rfl
              | pyInt n => exact Or.inl rfl
              | pyBool b => exact Or.inl rfl
              | pyNone => exact Or.inl rfl

theorem claim10_password_validation_order_witness :
    passwordInit (.pyInt 5) (.pyStr [120]) (.pyBool false) =
      .error (.attributeError stripAttrMsg) ∧
    passwordInit (.pyStr [120]) (.pyInt 7) (.pyBool false) =
      .error (.attributeError stripAttrMsg) := by
  constructor
  · exact claim10_password_validation_order.1 (.pyInt 5) (.pyStr [120]) (.pyBool false)
      (by decide) (by decide)
  · exact claim10_password_validation_order.2.1 (.pyStr [120]) (.pyInt 7) (.pyBool false)
      (.pyStr [120]) (by decide) (by decide) (by decide) (by decide) (by decide)

/-- C10 counterexample to the claim as stated: `bytes` arguments are truthy
non-strings, yet construction reaches the `isinstance` check and raises the
domain/password `TypeError` — not `AttributeError` — so that branch is
reachable at the public interface. -/
theorem claim10_counterexample :
    passwordInit (.pyBytes [120]) (.pyBytes [121]) (.pyBool false) =
      .error (.typeError stringsMsg) ∧
    passwordInit (.pyBytes [120]) (.pyBytes [121]) (.pyBool false) ≠
      .error (.attributeError stripAttrMsg) := by
  constructor
  · rfl
  · decide
